import Mathlib

/-
Verification development for the nku_spider crawler (Scrapy project):
shallow embedding of the item pipelines (pipelines.py) and of the two
Elasticsearch-fed spiders (nku_es_fed_spider.py,
nku_es_fed_incremental_spider.py), together with theorems settling the
specification claims about deduplication, index writes, frontier refill,
deny filtering and text cleaning.

Python strings are modelled as Lean String / List Char (Python len = code
point count), machine integers as Nat with explicit mod 2 ^ 32 in the MD5
code, raised-and-caught exceptions as explicit outcome values, and the
fixed regular expressions of the source as dedicated scanning functions.
-/

namespace NkuCrawler

/-! ## Python character and string helpers -/

/-- The backslash character (written numerically to keep the source plain). -/
def bsChar : Char := Char.ofNat 92

/-- The single-quote character. -/
def sqChar : Char := Char.ofNat 39

def ltChar : Char := '<'

def gtChar : Char := '>'

/-- Python whitespace: the set matched by the re module class backslash-s on
str patterns and stripped by str.strip — ASCII space, tab, LF, VT, FF, CR,
the C0 information separators, NEL, NBSP, and the Unicode space separators. -/
def isPySpace (c : Char) : Bool :=
  c.toNat = 32 || c.toNat = 9 || c.toNat = 10 || c.toNat = 11 || c.toNat = 12 ||
  c.toNat = 13 || c.toNat = 28 || c.toNat = 29 || c.toNat = 30 || c.toNat = 31 ||
  c.toNat = 133 || c.toNat = 160 || c.toNat = 5760 ||
  (8192 ≤ c.toNat && c.toNat ≤ 8202) ||
  c.toNat = 8232 || c.toNat = 8233 || c.toNat = 8239 || c.toNat = 8287 ||
  c.toNat = 12288

def dropWS (l : List Char) : List Char := l.dropWhile isPySpace

/-- Python str.strip: remove leading and trailing whitespace. -/
def pyStripL (l : List Char) : List Char := ((dropWS l).reverse |> dropWS).reverse

def pyStrip (s : String) : String := String.mk (pyStripL s.data)

theorem dropWhile_length_le {α : Type} (p : α → Bool) :
    ∀ l : List α, (l.dropWhile p).length ≤ l.length := by
  intro l
  induction l with
  | nil => simp
  | cons c rest ih =>
    by_cases h : p c
    · simpa [List.dropWhile_cons, h] using Nat.le_trans ih (Nat.le_succ _)
    · simp [List.dropWhile_cons, h]

/-- Scanning engine for one re.sub pass of the correctly written whitespace
pattern (backslash-s plus, as in pipelines.py): inRun records that the
scanner is inside a whitespace run whose single replacement space was
already emitted. -/
def collapseWsGo : Bool → List Char → List Char
  | _, [] => []
  | true, c :: rest =>
    if isPySpace c then collapseWsGo true rest
    else c :: collapseWsGo false rest
  | false, c :: rest =>
    if isPySpace c then ' ' :: collapseWsGo true rest
    else c :: collapseWsGo false rest

/-- One re.sub pass of backslash-s plus: every maximal run of whitespace
characters is replaced by a single ASCII space. -/
def collapseWs (l : List Char) : List Char := collapseWsGo false l

/-- Scanning engine for one re.sub pass of the spider files' miswritten
whitespace pattern: there the raw string holds a doubled backslash, so the
compiled regex matches a literal backslash followed by one or more letters
s — not whitespace — and replaces each such greedy run with one space.
skipS records that the scanner is still consuming the letters s of a
replaced run. -/
def subBSGo : Bool → List Char → List Char
  | _, [] => []
  | skipS, c :: rest =>
    if skipS && c = 's' then subBSGo true rest
    else
      match rest with
      | [] => [c]
      | d :: rest2 =>
        if c = bsChar && d = 's' then ' ' :: subBSGo true rest2
        else c :: subBSGo false (d :: rest2)

/-- One re.sub pass of the literal backslash-s-plus pattern. -/
def subBackslashS (l : List Char) : List Char := subBSGo false l

/-- Scanning engine for one re.sub pass of the tag pattern lt [^gt]+ gt:
state some buf holds the characters (reversed) read since an unmatched
opening angle bracket; an unterminated open bracket is emitted literally at
the end of input, and the empty pair lt gt does not match (the class needs
at least one character). -/
def subTagsGo (rep : List Char) : Option (List Char) → List Char → List Char
  | none, [] => []
  | some buf, [] => ltChar :: buf.reverse
  | none, c :: rest =>
    if c = ltChar then subTagsGo rep (some []) rest
    else c :: subTagsGo rep none rest
  | some buf, c :: rest =>
    if c = gtChar then
      match buf with
      | [] => ltChar :: gtChar :: subTagsGo rep none rest
      | _ :: _ => rep ++ subTagsGo rep none rest
    else subTagsGo rep (some (c :: buf)) rest

/-- re.sub of the tag pattern lt [^gt]+ gt with replacement rep. -/
def subTags (rep : List Char) (l : List Char) : List Char := subTagsGo rep none l

/-- Case-insensitive literal match at the head of the input; returns the rest
of the input after the pattern. -/
def matchHeadCI : List Char → List Char → Option (List Char)
  | [], l => some l
  | _ :: _, [] => none
  | p :: ps, c :: cs => if c.toLower = p.toLower then matchHeadCI ps cs else none

/-- One re.sub (IGNORECASE, DOTALL) pass of the spiders' lazy block pattern
lt openBody [^lt]*? lt closeBody: a match is the open tag, a run of
characters containing no lt, then the close tag (which begins with lt), all
removed. The fuel argument (initialised to the input length, one unit per
consumed character) only serves totality. -/
def subLazyBlockF (openBody closeBody : List Char) : Nat → List Char → List Char
  | 0, l => l
  | _ + 1, [] => []
  | fuel + 1, c :: rest =>
    if c = ltChar then
      match matchHeadCI openBody rest with
      | some afterOpen =>
        match afterOpen.dropWhile (fun d => d ≠ ltChar) with
        | [] => c :: subLazyBlockF openBody closeBody fuel rest
        | _lt :: afterLt =>
          match matchHeadCI closeBody afterLt with
          | some afterClose => subLazyBlockF openBody closeBody fuel afterClose
          | none => c :: subLazyBlockF openBody closeBody fuel rest
      | none => c :: subLazyBlockF openBody closeBody fuel rest
    else c :: subLazyBlockF openBody closeBody fuel rest

def subLazyBlock (openBody closeBody : List Char) (l : List Char) : List Char :=
  subLazyBlockF openBody closeBody l.length l

/-- Find the first occurrence of lt closeBody (case-insensitive) and return
the rest of the input after it — the lazy dot-star of the pipeline pattern
under DOTALL. -/
def findCloseCI (closeBody : List Char) : List Char → Option (List Char)
  | [] => none
  | c :: rest =>
    if c = ltChar then
      match matchHeadCI closeBody rest with
      | some afterClose => some afterClose
      | none => findCloseCI closeBody rest
    else findCloseCI closeBody rest

/-- One re.sub (IGNORECASE, DOTALL) pass of the pipeline block pattern
lt openBody [^gt]* gt .*? lt closeBody: open tag, a run without gt, a gt,
then anything up to the first close tag, all removed. Fuel as above. -/
def subGreedyBlockF (openBody closeBody : List Char) : Nat → List Char → List Char
  | 0, l => l
  | _ + 1, [] => []
  | fuel + 1, c :: rest =>
    if c = ltChar then
      match matchHeadCI openBody rest with
      | some afterOpen =>
        match afterOpen.dropWhile (fun d => d ≠ gtChar) with
        | [] => c :: subGreedyBlockF openBody closeBody fuel rest
        | _gt :: afterGt =>
          match findCloseCI closeBody afterGt with
          | some afterClose => subGreedyBlockF openBody closeBody fuel afterClose
          | none => c :: subGreedyBlockF openBody closeBody fuel rest
      | none => c :: subGreedyBlockF openBody closeBody fuel rest
    else c :: subGreedyBlockF openBody closeBody fuel rest

def subGreedyBlock (openBody closeBody : List Char) (l : List Char) : List Char :=
  subGreedyBlockF openBody closeBody l.length l

/-! ## The two character allow-lists -/

/-- The character class of DataCleaningPipeline.clean_text in pipelines.py,
whose raw string has single backslashes: CJK unified ideographs, latin
letters, digits, whitespace and the listed punctuation survive cleaning. -/
def pipeAllowed (c : Char) : Bool :=
  (0x4e00 ≤ c.toNat && c.toNat ≤ 0x9fa5) ||
  ('a' ≤ c && c ≤ 'z') || ('A' ≤ c && c ≤ 'Z') || ('0' ≤ c && c ≤ '9') ||
  isPySpace c ||
  c = '.' || c = ',' || c = ';' || c = ':' || c = '!' || c = '?' ||
  c = '(' || c = ')' ||
  c = '（' || c = '）' || c = '【' || c = '】' || c = '"' ||
  c = '。' || c = '，' || c = '；' || c = '：' || c = '！' || c = '？'

/-- The character class of clean_text in the two spider files, read literally
from the source: there the raw string holds doubled backslashes, so the class
contains a literal backslash, the letters u 4 e 0 9 f a 5 s, the ASCII range
from digit zero to backslash (an artifact of the range 0 dash backslash),
latin letters, digits, and the listed punctuation — but not the CJK block. -/
def spiderAllowed (c : Char) : Bool :=
  (48 ≤ c.toNat && c.toNat ≤ 92) ||
  ('a' ≤ c && c ≤ 'z') || ('A' ≤ c && c ≤ 'Z') ||
  c = 'u' || c = 'e' || c = 'f' || c = 'a' || c = 's' || c = bsChar ||
  c = '.' || c = ',' || c = ';' || c = ':' || c = '!' || c = '?' ||
  c = '(' || c = ')' ||
  c = '（' || c = '）' || c = '【' || c = '】' ||
  c = '"' || c = sqChar || c = ' ' ||
  c = '。' || c = '，' || c = '；' || c = '：' || c = '！' || c = '？' ||
  c = '、' || c = '·'

/-! ## The two text cleaners -/

def scriptOpen : List Char := ['s', 'c', 'r', 'i', 'p', 't']

def scriptClose : List Char := ['/', 's', 'c', 'r', 'i', 'p', 't', '>']

def styleOpen : List Char := ['s', 't', 'y', 'l', 'e']

def styleClose : List Char := ['/', 's', 't', 'y', 'l', 'e', '>']

/-- DataCleaningPipeline.clean_html_content (pipelines.py): drop script and
style blocks, drop remaining tags (replacement empty), collapse whitespace,
strip. -/
def clean_html_content (s : String) : String :=
  if s = "" then ""
  else
    let l1 := subGreedyBlock scriptOpen scriptClose s.data
    let l2 := subGreedyBlock styleOpen styleClose l1
    let l3 := subTags [] l2
    String.mk (pyStripL (collapseWs l3))

/-- DataCleaningPipeline.clean_text (pipelines.py): remove characters outside
the allow-list, collapse whitespace runs to one space, strip. -/
def pipeline_clean_text (s : String) : String :=
  if s = "" then ""
  else String.mk (pyStripL (collapseWs (s.data.filter pipeAllowed)))

/-- clean_text of the two ES-fed spider files. Faithful to the literal
source: the whitespace pattern and the character class are written there with
doubled backslashes inside raw strings, so the fourth substitution replaces
runs of a literal backslash followed by letters s, and the class is
spiderAllowed. Tag removal replaces each tag with one space. -/
def spider_clean_text (s : String) : String :=
  if s = "" then ""
  else
    let l1 := subLazyBlock scriptOpen scriptClose s.data
    let l2 := subLazyBlock styleOpen styleClose l1
    let l3 := subTags [' '] l2
    let l4 := subBackslashS l3
    String.mk (pyStripL (l4.filter spiderAllowed))

/-! ## MD5 (hashlib.md5 hexdigest over the UTF-8 bytes of the URL)

Both DuplicatesPipeline and ElasticsearchPipeline key their state by
hashlib.md5(url.encode("utf-8")).hexdigest(); the spiders' _generate_url_hash
is the same expression. 32-bit words are Nat with explicit mod 2 ^ 32. -/

def m32 : Nat := 4294967296

def add32 (a b : Nat) : Nat := (a + b) % m32

def rotl32 (x n : Nat) : Nat := ((x <<< n) % m32) ||| (x >>> (32 - n))

/-- UTF-8 encoding of one character, as byte values. -/
def charUtf8 (c : Char) : List Nat :=
  let n := c.toNat
  if n < 128 then [n]
  else if n < 2048 then [192 + n / 64, 128 + n % 64]
  else if n < 65536 then [224 + n / 4096, 128 + (n / 64) % 64, 128 + n % 64]
  else [240 + n / 262144, 128 + (n / 4096) % 64, 128 + (n / 64) % 64, 128 + n % 64]

def utf8Bytes (s : String) : List Nat := (s.data.map charUtf8).flatten

/-- n as count little-endian bytes. -/
def toLE (n count : Nat) : List Nat :=
  (List.range count).map (fun i => (n >>> (8 * i)) % 256)

/-- MD5 round constants (the standard sine table). -/
def md5K : List Nat :=
  [0xd76aa478, 0xe8c7b756, 0x242070db, 0xc1bdceee,
   0xf57c0faf, 0x4787c62a, 0xa8304613, 0xfd469501,
   0x698098d8, 0x8b44f7af, 0xffff5bb1, 0x895cd7be,
   0x6b901122, 0xfd987193, 0xa679438e, 0x49b40821,
   0xf61e2562, 0xc040b340, 0x265e5a51, 0xe9b6c7aa,
   0xd62f105d, 0x02441453, 0xd8a1e681, 0xe7d3fbc8,
   0x21e1cde6, 0xc33707d6, 0xf4d50d87, 0x455a14ed,
   0xa9e3e905, 0xfcefa3f8, 0x676f02d9, 0x8d2a4c8a,
   0xfffa3942, 0x8771f681, 0x6d9d6122, 0xfde5380c,
   0xa4beea44, 0x4bdecfa9, 0xf6bb4b60, 0xbebfbc70,
   0x289b7ec6, 0xeaa127fa, 0xd4ef3085, 0x04881d05,
   0xd9d4d039, 0xe6db99e5, 0x1fa27cf8, 0xc4ac5665,
   0xf4292244, 0x432aff97, 0xab9423a7, 0xfc93a039,
   0x655b59c3, 0x8f0ccc92, 0xffeff47d, 0x85845dd1,
   0x6fa87e4f, 0xfe2ce6e0, 0xa3014314, 0x4e0811a1,
   0xf7537e82, 0xbd3af235, 0x2ad7d2bb, 0xeb86d391]

/-- MD5 per-round left-rotation amounts. -/
def md5S : List Nat :=
  [7, 12, 17, 22, 7, 12, 17, 22, 7, 12, 17, 22, 7, 12, 17, 22,
   5, 9, 14, 20, 5, 9, 14, 20, 5, 9, 14, 20, 5, 9, 14, 20,
   4, 11, 16, 23, 4, 11, 16, 23, 4, 11, 16, 23, 4, 11, 16, 23,
   6, 10, 15, 21, 6, 10, 15, 21, 6, 10, 15, 21, 6, 10, 15, 21]

/-- Message padding: append 0x80, zeros to 56 mod 64, then the bit length as
eight little-endian bytes. -/
def md5Pad (msg : List Nat) : List Nat :=
  msg ++ 0x80 :: List.replicate ((55 + 64 - msg.length % 64) % 64) 0 ++
    toLE ((8 * msg.length) % (2 ^ 64)) 8

def chunks64 : List Nat → List (List Nat)
  | [] => []
  | c :: rest => (c :: rest).take 64 :: chunks64 ((c :: rest).drop 64)
termination_by l => l.length
decreasing_by
  simp only [List.length_drop, List.length_cons]
  omega

/-- Word g of a 64-byte chunk, little-endian. -/
def wordAt (chunk : List Nat) (g : Nat) : Nat :=
  chunk.getD (4 * g) 0 + 256 * chunk.getD (4 * g + 1) 0 +
    65536 * chunk.getD (4 * g + 2) 0 + 16777216 * chunk.getD (4 * g + 3) 0

/-- One MD5 round on state (a, b, c, d). -/
def md5Round (chunk : List Nat) (st : Nat × Nat × Nat × Nat) (i : Nat) :
    Nat × Nat × Nat × Nat :=
  let a := st.1
  let b := st.2.1
  let c := st.2.2.1
  let d := st.2.2.2
  let fg : Nat × Nat :=
    if i < 16 then ((b &&& c) ||| ((0xffffffff ^^^ b) &&& d), i)
    else if i < 32 then ((d &&& b) ||| ((0xffffffff ^^^ d) &&& c), (5 * i + 1) % 16)
    else if i < 48 then (b ^^^ c ^^^ d, (3 * i + 5) % 16)
    else (c ^^^ (b ||| (0xffffffff ^^^ d)), (7 * i) % 16)
  let tmp := add32 (add32 (add32 a fg.1) (md5K.getD i 0)) (wordAt chunk fg.2)
  (d, add32 b (rotl32 tmp (md5S.getD i 0)), b, c)

def md5Chunk (h : Nat × Nat × Nat × Nat) (chunk : List Nat) :
    Nat × Nat × Nat × Nat :=
  let r := (List.range 64).foldl (md5Round chunk) h
  (add32 h.1 r.1, add32 h.2.1 r.2.1, add32 h.2.2.1 r.2.2.1, add32 h.2.2.2 r.2.2.2)

def md5Bytes (msg : List Nat) : List Nat :=
  let r := (chunks64 (md5Pad msg)).foldl md5Chunk
    (0x67452301, 0xefcdab89, 0x98badcfe, 0x10325476)
  toLE r.1 4 ++ toLE r.2.1 4 ++ toLE r.2.2.1 4 ++ toLE r.2.2.2 4

def hexDigitChar (n : Nat) : Char :=
  if n < 10 then Char.ofNat (48 + n) else Char.ofNat (87 + n)

def byteHex (b : Nat) : List Char := [hexDigitChar (b / 16), hexDigitChar (b % 16)]

/-- hashlib.md5(s.encode("utf-8")).hexdigest() — the url hash used by the
pipelines and by the spiders' _generate_url_hash. -/
def md5Hex (s : String) : String := String.mk ((md5Bytes (utf8Bytes s)).map byteHex).flatten

/-! ## URL helpers shared by spiders and pipelines -/

def startsWithList : List Char → List Char → Bool
  | [], _ => true
  | _ :: _, [] => false
  | p :: ps, c :: cs => p = c && startsWithList ps cs

/-- Python s.startswith(pat) on code points. -/
def pyStartsWith (s pat : String) : Bool := startsWithList pat.data s.data

/-- Python s.endswith(pat) on code points. -/
def pyEndsWith (s pat : String) : Bool :=
  startsWithList pat.data.reverse s.data.reverse

/-- Substring containment (re.search of a literal pattern). -/
def listHasSub (pat : List Char) : List Char → Bool
  | [] => pat.isEmpty
  | c :: rest => startsWithList pat (c :: rest) || listHasSub pat rest

def containsSub (pat s : String) : Bool := listHasSub pat.data s.data

/-- Case-sensitive literal match at the head; returns the rest after it. -/
def matchHead : List Char → List Char → Option (List Char)
  | [], l => some l
  | _ :: _, [] => none
  | p :: ps, c :: cs => if c = p then matchHead ps cs else none

/-- Rest of the input after the first occurrence of pat. -/
def findAfterSub (pat : List Char) : List Char → Option (List Char)
  | [] => none
  | c :: rest =>
    match matchHead pat (c :: rest) with
    | some r => some r
    | none => findAfterSub pat rest

/-- The deny patterns shared by both spider files (_is_url_denied of the
incremental spider and the deny list of both LinkExtractors). On
newline-free URL strings, re.search of the anchored patterns dot-star
backslash-dot EXT dollar is an ends-with test, and re.search of the path
patterns is substring containment. -/
def isUrlDenied (url : String) : Bool :=
  ([".pdf", ".doc", ".docx", ".xls", ".xlsx",
    ".ppt", ".pptx", ".zip", ".rar"].any (fun ext => pyEndsWith url ext)) ||
  (["/download/", "/files/", "/uploads/"].any (fun seg => containsSub seg url))

/-- Model of urllib.parse netloc for the absolute http(s) URLs handled here:
the text between the scheme separator and the next slash, question mark or
hash sign; empty when there is no scheme separator. -/
def netlocOf (url : String) : String :=
  match findAfterSub [':', '/', '/'] url.data with
  | none => ""
  | some after =>
    String.mk (after.takeWhile (fun c => c ≠ '/' && c ≠ '?' && c ≠ '#'))

/-- allowed_domains of both spiders. -/
def allowed_domains : List String := ["nankai.edu.cn"]

/-- The in-scope test used in parse and start_requests: the host equals an
allowed domain or ends with dot plus the domain. -/
def allowedHost (host : String) : Bool :=
  allowed_domains.any (fun d => host = d || pyEndsWith host ("." ++ d))

/-! ## Item pipelines (pipelines.py), in ITEM_PIPELINES order 300-600 -/

/-- A crawl item (items.WebPageItem restricted to the fields the claims
touch); a Python item with no url key is modelled by an empty url, which is
equally falsy in the source's check. -/
structure Item where
  url : String
  title : String
  content : String
deriving DecidableEq

/-- Result of one pipeline stage: the (possibly modified) item handed to the
next stage, or a raised DropItem with its reason, which stops the chain. -/
inductive PipeResult where
  | next (it : Item)
  | dropped (reason : String)
deriving DecidableEq

/-- DataCleaningPipeline.process_item: content through clean_html_content
then clean_text, title through clean_text; the url is untouched. -/
def dataCleaningProcess (it : Item) : Item :=
  { it with
    content := pipeline_clean_text (clean_html_content it.content)
    title := pipeline_clean_text it.title }

/-- DuplicatesPipeline.process_item over its seen-set (the Redis set
crawled_urls, or the in-memory fallback — both are plain membership-and-add
on md5 hashes): a missing url or an already-seen hash raises DropItem;
otherwise the hash is added (mark_processed) and the item passes on.
The add happens in this stage, before any index write. -/
def duplicatesProcess (seen : List String) (it : Item) :
    List String × PipeResult :=
  if it.url = "" then (seen, .dropped "缺少URL字段")
  else
    let h := md5Hex it.url
    if seen.contains h then (seen, .dropped ("重复URL: " ++ it.url))
    else (h :: seen, .next it)

/-- Outcome of one es.index call: the call either succeeds or raises a
(transient) store error, which the source catches and logs. -/
inductive WriteOutcome where
  | success
  | transientError
deriving DecidableEq

/-- The Elasticsearch side of the model: whether open_spider obtained a
client, the scripted outcomes of successive index calls (an exhausted script
means the store answers normally), and the id-keyed document store. -/
structure EsState where
  connected : Bool
  outcomes : List WriteOutcome
  store : List (String × Item)
deriving DecidableEq

/-- es.index with an explicit id: replace the document stored under that id,
or append a new entry when the id is absent. -/
def esUpsert (store : List (String × Item)) (id : String) (doc : Item) :
    List (String × Item) :=
  if store.any (fun p => p.1 = id) then
    store.map (fun p => if p.1 = id then (id, doc) else p)
  else (id, doc) :: store

/-- ElasticsearchPipeline.process_item: without a client the item passes
straight through; otherwise one single index call is made with
doc_id = md5Hex url (no retry — an error is caught, logged, and the item is
still returned to the next stage; nothing is ever dropped here). The stored
document is the item (plus a derived domain field, kept implicit here since
the item fields determine it). -/
def elasticsearchProcess (st : EsState) (it : Item) : EsState × PipeResult :=
  if st.connected = false then (st, .next it)
  else
    let docId := md5Hex it.url
    match st.outcomes with
    | [] => ({ st with store := esUpsert st.store docId it }, .next it)
    | .success :: rest =>
      ({ st with outcomes := rest, store := esUpsert st.store docId it }, .next it)
    | .transientError :: rest =>
      ({ st with outcomes := rest }, .next it)

/-- FilePipeline.process_item: append the item to the JSONL log and pass it
on unchanged. -/
def filePipelineProcess (log : List Item) (it : Item) : List Item × PipeResult :=
  (log ++ [it], .next it)

/-- The mutable state threaded through the four configured pipelines. -/
structure PipelineState where
  seen : List String
  es : EsState
  log : List Item
deriving DecidableEq

/-- One item through ITEM_PIPELINES in settings order: DataCleaning (300),
Duplicates (400), Elasticsearch (500), File (600); a DropItem raised by a
stage skips all later stages. -/
def runItemPipelines (st : PipelineState) (raw : Item) :
    PipelineState × PipeResult :=
  let it1 := dataCleaningProcess raw
  match duplicatesProcess st.seen it1 with
  | (seen1, .dropped r) => ({ st with seen := seen1 }, .dropped r)
  | (seen1, .next it2) =>
    match elasticsearchProcess st.es it2 with
    | (es1, .dropped r) => ({ st with seen := seen1, es := es1 }, .dropped r)
    | (es1, .next it3) =>
      let fp := filePipelineProcess st.log it3
      ({ seen := seen1, es := es1, log := fp.1 }, fp.2)

/-! ## Seen-set checks in the spiders -/

/-- The Redis client as the spiders see it: never initialised (connection
failed or not attempted), raising RedisError on every sismember, or serving
a set of hashes. -/
inductive RedisState where
  | unavailable
  | erroring (hashes : List String)
  | available (hashes : List String)
deriving DecidableEq

/-- Model of _is_url_seen of both ES-fed spiders. Returns the seen flag with
whether a warning or error was logged: with no client it warns and assumes
not seen; when sismember raises RedisError it logs the error and assumes not
seen; otherwise it answers the membership query for md5Hex url. -/
def isUrlSeen (rs : RedisState) (url : String) : Bool × Bool :=
  match rs with
  | .unavailable => (false, true)
  | .erroring _ => (false, true)
  | .available hashes => (hashes.contains (md5Hex url), false)

/-! ## Frontier fetch from the index (both spiders) -/

/-- One entry of a stored page's anchor_texts array; href is optional as in
anchor.get. -/
structure AnchorRef where
  text : String
  href : Option String
deriving DecidableEq

/-- One Elasticsearch hit as consumed by the spiders: its _source
anchor_texts list. -/
structure EsHit where
  anchors : List AnchorRef
deriving DecidableEq

/-- Inner anchor loop of fetch_urls_from_es
(nku_es_fed_incremental_spider.py): each href that is an http(s) URL, not
seen and not denied is added to the batch set; reaching the batch size
breaks. acc carries the batch collected so far (most recent first; set
semantics via the contains guard). -/
def collectAnchors (rs : RedisState) (size : Nat) :
    List AnchorRef → List String → List String
  | [], acc => acc
  | a :: rest, acc =>
    match a.href with
    | none => collectAnchors rs size rest acc
    | some url =>
      if pyStartsWith url "http://" || pyStartsWith url "https://" then
        if (isUrlSeen rs url).1 = false && isUrlDenied url = false then
          let acc1 := if acc.contains url then acc else url :: acc
          if size ≤ acc1.length then acc1
          else collectAnchors rs size rest acc1
        else collectAnchors rs size rest acc
      else collectAnchors rs size rest acc

/-- Outer hit loop of fetch_urls_from_es: collect anchors per hit, breaking
once the batch size is reached. -/
def fetchUrlsFromEs (rs : RedisState) (size : Nat) :
    List EsHit → List String → List String
  | [], acc => acc
  | h :: rest, acc =>
    let acc1 := collectAnchors rs size h.anchors acc
    if size ≤ acc1.length then acc1
    else fetchUrlsFromEs rs size rest acc1

/-- fetch_urls_from_es with the source's crawl_batch_size of 1000 starting
from the empty batch (urls_to_crawl_batch is cleared before every refill).
An unavailable index client or a search error leaves the batch empty, which
the empty hit list also models. -/
def fetchBatch (rs : RedisState) (hits : List EsHit) : List String :=
  fetchUrlsFromEs rs 1000 hits []

/-- Anchor harvesting of the one-shot spider's start_requests
(nku_es_fed_spider.py): scheme check and seen check only — no deny check on
this path. -/
def collectAnchorsOneShot (rs : RedisState) :
    List AnchorRef → List String → List String
  | [], acc => acc
  | a :: rest, acc =>
    match a.href with
    | none => collectAnchorsOneShot rs rest acc
    | some url =>
      if pyStartsWith url "http://" || pyStartsWith url "https://" then
        if (isUrlSeen rs url).1 = false then
          collectAnchorsOneShot rs rest (if acc.contains url then acc else url :: acc)
        else collectAnchorsOneShot rs rest acc
      else collectAnchorsOneShot rs rest acc

/-- The page-fetch targets yielded by the one-shot spider's start_requests
from the scanned hits (initial_urls_to_crawl): every collected URL becomes a
scrapy.Request. -/
def startRequestsTargets (rs : RedisState) : List EsHit → List String → List String
  | [], acc => acc
  | h :: rest, acc => startRequestsTargets rs rest (collectAnchorsOneShot rs h.anchors acc)

/-! ## Idle-refill loop (incremental spider) -/

/-- Outcome of one spider_idle call: either new requests were scheduled via
engine.crawl and DontCloseSpider was raised, or nothing was fetched and the
handler returns, letting Scrapy close the spider. -/
inductive IdleOutcome where
  | keepOpen (scheduled : List String)
  | close
deriving DecidableEq

/-- spider_idle of the incremental spider: refill the batch from the index;
schedule every fetched URL and raise DontCloseSpider when the batch is
non-empty, otherwise fall through (the spider then closes). -/
def spiderIdleStep (rs : RedisState) (hits : List EsHit) : IdleOutcome :=
  let batch := fetchBatch rs hits
  if batch.isEmpty then .close else .keepOpen batch

/-- Number of idle-refill fill attempts the engine performs before the
spider closes, given the scripted hit batches the index returns on
successive fills (the run consumes the whole script when no fill comes up
empty). -/
def fillsUntilClose (rs : RedisState) : List (List EsHit) → Nat
  | [] => 0
  | hits :: rest =>
    match spiderIdleStep rs hits with
    | .close => 1
    | .keepOpen _ => 1 + fillsUntilClose rs rest

/-! ## parse of the incremental spider -/

/-- What the parse callback of the incremental spider reads from a fetched
response: the final URL, the first title and h1 text nodes, the text nodes
per content selector, the body text nodes, and the link extractor's results. -/
structure ParseInput where
  url : String
  titleText : Option String
  h1Text : Option String
  selectorTexts : List (List String)
  bodyTexts : List String
  links : List String
deriving DecidableEq

/-- extract_title of both ES-fed spiders: the stripped title text when the
raw node is truthy, else the stripped h1 text when truthy, else the literal
无标题. -/
def extract_title (titleText h1Text : Option String) : String :=
  match titleText with
  | some t =>
    if t ≠ "" then pyStrip t
    else
      match h1Text with
      | some h => if h ≠ "" then pyStrip h else "无标题"
      | none => "无标题"
  | none =>
    match h1Text with
    | some h => if h ≠ "" then pyStrip h else "无标题"
    | none => "无标题"

/-- Python space.join on character lists. -/
def joinWithSpace : List (List Char) → List Char
  | [] => []
  | [f] => f
  | f :: g :: rest => f ++ ' ' :: joinWithSpace (g :: rest)

/-- The join of one selector's text nodes: strip each node, keep the truthy
ones, join with single spaces. -/
def joinFrags (frags : List String) : String :=
  String.mk (joinWithSpace
    ((frags.filter (fun t => (pyStripL t.data).isEmpty = false)).map
      (fun t => pyStripL t.data)))

/-- The selector loop of extract_content: a selector with any text nodes
overwrites the candidate; a candidate longer than 100 characters stops the
loop. -/
def selectLoop : List (List String) → String → String
  | [], ct => ct
  | frags :: rest, ct =>
    if frags.isEmpty then selectLoop rest ct
    else
      let ct1 := joinFrags frags
      if 100 < ct1.length then ct1 else selectLoop rest ct1

/-- extract_content of both ES-fed spiders: run the selector loop; when the
final candidate is empty or shorter than 100 characters, fall back to the
joined body text; clean the result with the spider cleaner. -/
def extract_content (selectorTexts : List (List String)) (bodyTexts : List String) :
    String :=
  let ct := selectLoop selectorTexts ""
  if ct = "" ∨ ct.length < 100 then spider_clean_text (joinFrags bodyTexts)
  else spider_clean_text ct

/-- The link loop at the end of the incremental spider's parse: each
unseen, undenied, in-scope link may add a newly discovered domain, but the
request yield is commented out in the source, so no requests accumulate.
Returns (discovered domains, yielded requests). -/
def parseLinkLoop (rs : RedisState) :
    List String → List String → List String × List String
  | [], domains => (domains, [])
  | link :: rest, domains =>
    if (isUrlSeen rs link).1 = false && isUrlDenied link = false then
      let host := netlocOf link
      let domains1 :=
        if host ≠ "" && allowedHost host && domains.contains host = false
        then domains ++ [host] else domains
      parseLinkLoop rs rest domains1
    else parseLinkLoop rs rest domains

/-- parse of the incremental spider: yield exactly one item built by the
extractors, then walk the extracted links without yielding any request.
Returns the item, the updated discovered-domain list, and the requests the
callback yields. -/
def parseIncremental (rs : RedisState) (domains : List String) (inp : ParseInput) :
    Item × List String × List String :=
  let it : Item :=
    { url := inp.url
      title := extract_title inp.titleText inp.h1Text
      content := extract_content inp.selectorTexts inp.bodyTexts }
  let lw := parseLinkLoop rs inp.links domains
  (it, lw.1, lw.2)

/-! ## Spec-side descriptions used by the refinement claims -/

/-- Modelled from the amended spec words for the title rule: the first
candidate among title text and h1 text that is present and non-empty, white-
space-stripped; the literal 无标题 when none qualifies. -/
def specTitle (candidates : List (Option String)) : String :=
  match candidates with
  | [] => "无标题"
  | none :: rest => specTitle rest
  | some t :: rest => if t ≠ "" then pyStrip t else specTitle rest

/-- Modelled from the amended spec words for the content rule: the join of
the first selector having text nodes whose join exceeds 100 characters. -/
def firstBigJoin : List (List String) → Option String
  | [] => none
  | frags :: rest =>
    if frags.isEmpty = false ∧ 100 < (joinFrags frags).length then some (joinFrags frags)
    else firstBigJoin rest

/-- Modelled from the amended spec words: the join of the last selector with
any text nodes (the candidate the loop retains when no join exceeds 100). -/
def lastJoin : List (List String) → String → String
  | [], acc => acc
  | frags :: rest, acc => lastJoin rest (if frags.isEmpty then acc else joinFrags frags)

/-- Modelled from the amended spec words for extract_content: accept the
first selector join exceeding 100 characters; otherwise the retained
candidate is the last selector with any text nodes, and the full-body join
is used exactly when that candidate is shorter than 100 characters; the
spider cleaner is applied to the accepted text. -/
def specContent (selectorTexts : List (List String)) (bodyTexts : List String) :
    String :=
  match firstBigJoin selectorTexts with
  | some j => spider_clean_text j
  | none =>
    let r := lastJoin selectorTexts ""
    if r.length < 100 then spider_clean_text (joinFrags bodyTexts)
    else spider_clean_text r

/-! ## Concrete fixtures used by counterexamples and witnesses -/

/-- A plain in-scope page item. -/
def itemA : Item := ⟨"http://cc.nankai.edu.cn/come.html", "t", "c"⟩

/-- Same url as itemA with different extracted fields (a re-crawl). -/
def itemB : Item := ⟨"http://cc.nankai.edu.cn/come.html", "t2", "c2"⟩

/-- A stored anchor pointing at an ordinary page. -/
def goodHit : EsHit := ⟨[⟨"link", some "http://news.nankai.edu.cn/index.html"⟩]⟩

/-- A stored anchor pointing at a denylisted document URL. -/
def deniedHit : EsHit := ⟨[⟨"attachment", some "http://news.nankai.edu.cn/files/report.pdf"⟩]⟩

/-! ## Claim theorems -/

theorem parseLinkLoop_no_requests (rs : RedisState) :
    ∀ links domains, (parseLinkLoop rs links domains).2 = [] := by
  intro links
  induction links with
  | nil => intro domains; rfl
  | cons link rest ih =>
    intro domains
    simp only [parseLinkLoop]
    split
    · exact ih _
    · exact ih _

/-- Claim C5: in the incremental (continuous-refill) spider, the parse
callback never yields fetch requests for the anchors discovered during the
page's own extraction — its request list is always empty; new targets can
only come from the idle-refill frontier fetch. -/
theorem parse_enqueues_no_requests (rs : RedisState) (domains : List String)
    (inp : ParseInput) : (parseIncremental rs domains inp).2.2 = [] := by
  simp only [parseIncremental]
  exact parseLinkLoop_no_requests rs inp.links domains

/-- Claim C6: when the seen-set store is unavailable or the membership query
raises a store error, _is_url_seen answers false (not seen) instead of
raising or blocking, and logs a warning or error. -/
theorem seen_check_fails_open (rs : RedisState) (url : String)
    (h : rs = RedisState.unavailable ∨ ∃ hs, rs = RedisState.erroring hs) :
    isUrlSeen rs url = (false, true) := by
  rcases h with h | ⟨hs, h⟩ <;> subst h <;> rfl

theorem seen_check_fails_open_witness :
    isUrlSeen RedisState.unavailable "http://www.nankai.edu.cn/" = (false, true) :=
  seen_check_fails_open RedisState.unavailable "http://www.nankai.edu.cn/" (Or.inl rfl)

/-- Claim C8 counterexample: with no title and no h1 text the extractor
returns the literal 无标题, not the literal untitled stated by the claim. -/
theorem title_fallback_literal_cex :
    extract_title none none = "无标题" ∧ extract_title none none ≠ "untitled" := by
  exact ⟨rfl, by decide⟩

/-- Claim C8 (amended): the extracted title is the whitespace-stripped first
present-and-non-empty candidate among the title text and the h1 text, and
when both are missing or empty the literal 无标题 is returned. -/
theorem extract_title_first_nonempty (titleText h1Text : Option String) :
    extract_title titleText h1Text = specTitle [titleText, h1Text] := by
  cases titleText <;> cases h1Text <;> simp only [extract_title, specTitle]

/-- Claim C2 counterexample: with the index stub returning an empty batch on
the very first idle fill (and on the second, as the claim's scenario
stipulates), the loop closes after one fill — it does not retry and reach a
second fill. -/
theorem single_empty_fill_stops_cex :
    fillsUntilClose RedisState.unavailable [[], []] = 1 ∧ (1 : Nat) ≠ 2 :=
  ⟨rfl, by decide⟩

/-- Claim C2 (amended): the idle-refill loop stops exactly at the first
empty frontier fill: with scripted index answers whose leading fills are
non-empty and whose next fill is empty, the spider closes after those
non-empty fills plus the single empty one, never polling again. -/
theorem crawl_stops_on_first_empty_fill (rs : RedisState)
    (front tailScript : List (List EsHit)) (hits : List EsHit)
    (hfront : ∀ b ∈ front, (fetchBatch rs b).isEmpty = false)
    (hempty : (fetchBatch rs hits).isEmpty = true) :
    fillsUntilClose rs (front ++ hits :: tailScript) = front.length + 1 := by
  induction front with
  | nil =>
    simp only [List.nil_append, fillsUntilClose, spiderIdleStep, hempty, if_true,
      List.length_nil]
  | cons b rest ih =>
    have hb : (fetchBatch rs b).isEmpty = false := hfront b (by simp)
    have ih1 := ih (fun x hx => hfront x (by simp [hx]))
    have step : fillsUntilClose rs ((b :: rest) ++ hits :: tailScript)
        = 1 + fillsUntilClose rs (rest ++ hits :: tailScript) := by
      simp only [List.cons_append, fillsUntilClose, spiderIdleStep, hb,
        Bool.false_eq_true, if_false, List.append_eq]
    rw [step, ih1, List.length_cons]
    omega

theorem crawl_stops_on_first_empty_fill_witness :
    fillsUntilClose RedisState.unavailable [[goodHit], []] = 2 := by
  have h := crawl_stops_on_first_empty_fill RedisState.unavailable [[goodHit]] [] []
    (by intro b hb
        simp only [List.mem_singleton] at hb
        subst hb
        decide)
    (by rfl)
  simpa using h

/-- Claim C3 counterexample: with a connected store scripted to fail twice
and then succeed (the claim's retry-bound-3 scenario), process_item consumes
exactly one outcome (no retry), stores nothing, and returns the item to the
next stage instead of dropping it with reason store-unavailable. -/
theorem index_write_no_retry_cex :
    elasticsearchProcess
        ⟨true, [WriteOutcome.transientError, WriteOutcome.transientError,
                WriteOutcome.success], []⟩ itemA
      = (⟨true, [WriteOutcome.transientError, WriteOutcome.success], []⟩,
         PipeResult.next itemA) ∧
    PipeResult.next itemA ≠ PipeResult.dropped "store-unavailable" := by
  exact ⟨rfl, by decide⟩

/-- Claim C3 (amended): on every item the index-write stage makes exactly
one write attempt — the item always passes unchanged to later stages (never
dropped, never retried), and when the single attempt raises a transient
error the store is left unchanged. -/
theorem index_write_single_attempt_pass_through (st : EsState) (it : Item)
    (hconn : st.connected = true) :
    (elasticsearchProcess st it).2 = PipeResult.next it ∧
    (elasticsearchProcess st it).1.outcomes = st.outcomes.tail ∧
    (st.outcomes.head? = some WriteOutcome.transientError →
      (elasticsearchProcess st it).1.store = st.store) := by
  obtain ⟨c, outs, store⟩ := st
  simp only at hconn
  subst hconn
  match outs with
  | [] => exact ⟨rfl, rfl, by intro h; simp at h⟩
  | WriteOutcome.success :: rest => exact ⟨rfl, rfl, by intro h; simp at h⟩
  | WriteOutcome.transientError :: rest => exact ⟨rfl, rfl, fun _ => rfl⟩

theorem index_write_single_attempt_pass_through_witness :
    (elasticsearchProcess ⟨true, [WriteOutcome.transientError],
        ([] : List (String × Item))⟩ itemA).1.store = [] ∧
    (elasticsearchProcess ⟨true, [WriteOutcome.transientError], []⟩ itemA).2
        = PipeResult.next itemA :=
  ⟨(index_write_single_attempt_pass_through
      ⟨true, [WriteOutcome.transientError], []⟩ itemA rfl).2.2 rfl,
   (index_write_single_attempt_pass_through
      ⟨true, [WriteOutcome.transientError], []⟩ itemA rfl).1⟩

theorem esUpsert_mem_keys (store : List (String × Item)) (id : String) (doc : Item) :
    id ∈ (esUpsert store id doc).map Prod.fst := by
  unfold esUpsert
  by_cases h : store.any (fun p => p.1 = id) = true
  · simp only [h, if_true]
    obtain ⟨x, hx, hid⟩ := List.any_eq_true.mp h
    refine List.mem_map.mpr ⟨if x.1 = id then (id, doc) else x, List.mem_map.mpr ⟨x, hx, rfl⟩, ?_⟩
    simp only [of_decide_eq_true hid, if_true]
  · simp [h]

theorem esUpsert_keys_of_present (store : List (String × Item)) (id : String)
    (doc : Item) (h : store.any (fun p => p.1 = id) = true) :
    (esUpsert store id doc).map Prod.fst = store.map Prod.fst ∧
    (esUpsert store id doc).length = store.length := by
  unfold esUpsert
  simp only [h, if_true]
  constructor
  · rw [List.map_map]
    refine List.map_congr_left ?_
    intro p _
    simp only [Function.comp_apply]
    split
    · next hp => exact hp.symm
    · rfl
  · exact List.length_map _ _

theorem any_of_mem_keys (store : List (String × Item)) (id : String)
    (h : id ∈ store.map Prod.fst) : store.any (fun p => p.1 = id) = true := by
  obtain ⟨p, hp, hid⟩ := List.mem_map.mp h
  exact List.any_eq_true.mpr ⟨p, hp, decide_eq_true hid⟩

/-- Claim C7: index writes are keyed by the deterministic md5 hash of the
item url, so re-ingesting an item with the same url (store answering
normally, empty outcome script) writes to the same document id: the second
write changes no keys and appends no entry, and the store keeps a record
under the url-derived id. -/
theorem reingest_same_url_overwrites (store : List (String × Item))
    (it1 it2 : Item) (hurl : it1.url = it2.url) :
    ((elasticsearchProcess ((elasticsearchProcess ⟨true, [], store⟩ it1).1) it2).1.store.map
        Prod.fst
      = (elasticsearchProcess ⟨true, [], store⟩ it1).1.store.map Prod.fst) ∧
    ((elasticsearchProcess ((elasticsearchProcess ⟨true, [], store⟩ it1).1) it2).1.store.length
      = (elasticsearchProcess ⟨true, [], store⟩ it1).1.store.length) ∧
    md5Hex it2.url ∈ (elasticsearchProcess ⟨true, [], store⟩ it1).1.store.map Prod.fst := by
  have h1 : (elasticsearchProcess ⟨true, [], store⟩ it1).1
      = ⟨true, [], esUpsert store (md5Hex it1.url) it1⟩ := rfl
  rw [h1, hurl]
  have h2 : (elasticsearchProcess ⟨true, [], esUpsert store (md5Hex it2.url) it1⟩ it2).1
      = ⟨true, [], esUpsert (esUpsert store (md5Hex it2.url) it1) (md5Hex it2.url) it2⟩ := rfl
  rw [h2]
  have hmem : md5Hex it2.url ∈ (esUpsert store (md5Hex it2.url) it1).map Prod.fst :=
    esUpsert_mem_keys store (md5Hex it2.url) it1
  have hp := esUpsert_keys_of_present (esUpsert store (md5Hex it2.url) it1)
    (md5Hex it2.url) it2 (any_of_mem_keys _ _ hmem)
  exact ⟨hp.1, hp.2, hmem⟩

theorem reingest_same_url_overwrites_witness :
    ((elasticsearchProcess ((elasticsearchProcess ⟨true, [], []⟩ itemA).1) itemB).1.store.map
        Prod.fst
      = (elasticsearchProcess ⟨true, [], []⟩ itemA).1.store.map Prod.fst) ∧
    md5Hex itemB.url ∈ (elasticsearchProcess ⟨true, [], []⟩ itemA).1.store.map Prod.fst :=
  ⟨(reingest_same_url_overwrites [] itemA itemB rfl).1,
   (reingest_same_url_overwrites [] itemA itemB rfl).2.2⟩

theorem collectAnchors_not_denied (rs : RedisState) (size : Nat) :
    ∀ (anchors : List AnchorRef) (acc : List String),
      (∀ u ∈ acc, isUrlDenied u = false) →
      ∀ url ∈ collectAnchors rs size anchors acc, isUrlDenied url = false := by
  intro anchors
  induction anchors with
  | nil => intro acc hacc url hmem; exact hacc url hmem
  | cons a rest ih =>
    intro acc hacc url hmem
    cases ha : a.href with
    | none =>
      simp only [collectAnchors, ha] at hmem
      exact ih acc hacc url hmem
    | some u0 =>
      simp only [collectAnchors, ha] at hmem
      split at hmem
      · split at hmem
        · next hok =>
          have hdeny : isUrlDenied u0 = false := by
            have h2 := hok
            simp only [Bool.and_eq_true, decide_eq_true_eq] at h2
            exact h2.2
          generalize hdef : (if acc.contains u0 = true then acc else u0 :: acc) = acc1
            at hmem
          have hacc1 : ∀ v ∈ acc1, isUrlDenied v = false := by
            rw [← hdef]
            split
            · exact hacc
            · intro v hv
              rcases List.mem_cons.mp hv with hv | hv
              · subst hv; exact hdeny
              · exact hacc v hv
          split at hmem
          · exact hacc1 url hmem
          · exact ih acc1 hacc1 url hmem
        · exact ih acc hacc url hmem
      · exact ih acc hacc url hmem

theorem fetchUrls_not_denied (rs : RedisState) (size : Nat) :
    ∀ (hits : List EsHit) (acc : List String),
      (∀ u ∈ acc, isUrlDenied u = false) →
      ∀ url ∈ fetchUrlsFromEs rs size hits acc, isUrlDenied url = false := by
  intro hits
  induction hits with
  | nil => intro acc hacc url hmem; exact hacc url hmem
  | cons h rest ih =>
    intro acc hacc url hmem
    simp only [fetchUrlsFromEs] at hmem
    have hacc1 := collectAnchors_not_denied rs size h.anchors acc hacc
    split at hmem
    · exact hacc1 url hmem
    · exact ih _ hacc1 url hmem

/-- Claim C4 (amended): every URL in the frontier batch the incremental
spider builds from index-store anchor samples passes the deny filter —
document extensions and denylisted path segments never become page-fetch
targets on this path. (The one-shot spider's start_requests path checks only
scheme and seen-set; see the counterexample.) -/
theorem incremental_frontier_excludes_denied (rs : RedisState) (hits : List EsHit)
    (url : String) (hmem : url ∈ fetchBatch rs hits) : isUrlDenied url = false :=
  fetchUrls_not_denied rs 1000 hits [] (by intro u hu; cases hu) url hmem

theorem incremental_frontier_excludes_denied_witness :
    "http://news.nankai.edu.cn/index.html" ∈
      fetchBatch RedisState.unavailable [goodHit] ∧
    isUrlDenied "http://news.nankai.edu.cn/index.html" = false :=
  ⟨by decide,
   incremental_frontier_excludes_denied RedisState.unavailable [goodHit]
     "http://news.nankai.edu.cn/index.html" (by decide)⟩

/-- Claim C4 counterexample: a URL matching both a document extension and a
denylisted path segment, reachable from a stored anchor and unseen, is
yielded as a page-fetch target by the one-shot spider's start_requests,
whose ES-fed path has no deny check. -/
theorem one_shot_frontier_admits_denied_url_cex :
    isUrlDenied "http://news.nankai.edu.cn/files/report.pdf" = true ∧
    "http://news.nankai.edu.cn/files/report.pdf" ∈
      startRequestsTargets RedisState.unavailable [deniedHit] [] :=
  ⟨by decide, by decide⟩

/-- Claim C1 counterexample: with the store connected but the single index
call failing, the full pipeline chain (settings order 300-600) still adds
the url hash to the seen-set in the dedupe stage, while the store keeps no
record — the URL is marked seen without a corresponding stored record. -/
theorem seen_marked_despite_failed_write_cex :
    md5Hex "http://cc.nankai.edu.cn/come.html" ∈
      (runItemPipelines ⟨[], ⟨true, [WriteOutcome.transientError], []⟩, []⟩ itemA).1.seen ∧
    (runItemPipelines ⟨[], ⟨true, [WriteOutcome.transientError], []⟩, []⟩ itemA).1.es.store
      = [] := by
  have h : runItemPipelines ⟨[], ⟨true, [WriteOutcome.transientError], []⟩, []⟩ itemA
      = (⟨[md5Hex itemA.url], ⟨true, [], []⟩, [dataCleaningProcess itemA]⟩,
         PipeResult.next (dataCleaningProcess itemA)) := by rfl
  rw [h]
  exact ⟨List.mem_singleton.mpr rfl, rfl⟩

/-- Claim C1 (amended): the url hash is added to the seen-set by the dedupe
stage, which runs before the index write; for every item with a url that is
not already seen, the hash is in the seen-set after the chain regardless of
the write outcome, and a failing write leaves the store without the record. -/
theorem seen_marked_before_index_write (st : PipelineState) (it : Item)
    (hurl : it.url ≠ "")
    (hdup : st.seen.contains (md5Hex it.url) = false) :
    md5Hex it.url ∈ (runItemPipelines st it).1.seen ∧
    (st.es.connected = true →
      st.es.outcomes.head? = some WriteOutcome.transientError →
      (runItemPipelines st it).1.es.store = st.es.store) := by
  obtain ⟨seen, es, log⟩ := st
  have hurl1 : (dataCleaningProcess it).url = it.url := rfl
  simp only [runItemPipelines, duplicatesProcess, hurl1, hurl, if_false, hdup,
    Bool.false_eq_true, if_neg] at *
  obtain ⟨c, outs, store⟩ := es
  cases c with
  | false =>
    simp only [elasticsearchProcess, if_pos rfl]
    exact ⟨List.mem_cons_self _ _, by intro h; cases h⟩
  | true =>
    match outs with
    | [] =>
      simp only [elasticsearchProcess]
      refine ⟨List.mem_cons_self _ _, ?_⟩
      intro _ h
      simp at h
    | WriteOutcome.success :: rest =>
      simp only [elasticsearchProcess]
      refine ⟨List.mem_cons_self _ _, ?_⟩
      intro _ h
      simp at h
    | WriteOutcome.transientError :: rest =>
      simp only [elasticsearchProcess]
      exact ⟨List.mem_cons_self _ _, fun _ _ => rfl⟩

theorem seen_marked_before_index_write_witness :
    md5Hex itemA.url ∈
      (runItemPipelines ⟨[], ⟨true, [WriteOutcome.transientError], []⟩, []⟩ itemA).1.seen ∧
    (runItemPipelines ⟨[], ⟨true, [WriteOutcome.transientError], []⟩, []⟩ itemA).1.es.store
      = [] := by
  have h := seen_marked_before_index_write
    ⟨[], ⟨true, [WriteOutcome.transientError], []⟩, []⟩ itemA (by decide) rfl
  exact ⟨h.1, h.2 rfl rfl⟩

theorem firstBigJoin_big : ∀ (sels : List (List String)) (j : String),
    firstBigJoin sels = some j → 100 < j.length := by
  intro sels
  induction sels with
  | nil => intro j h; cases h
  | cons frags rest ih =>
    intro j h
    simp only [firstBigJoin] at h
    split at h
    · next hc =>
      injection h with h2
      subst h2
      exact hc.2
    · exact ih j h

theorem selectLoop_spec :
    ∀ (sels : List (List String)) (ct : String), ct.length ≤ 100 →
      selectLoop sels ct =
        (match firstBigJoin sels with
         | some j => j
         | none => lastJoin sels ct) := by
  intro sels
  induction sels with
  | nil => intro ct _; rfl
  | cons frags rest ih =>
    intro ct hct
    by_cases hf : frags.isEmpty
    · have hcond : ¬(frags.isEmpty = false ∧ 100 < (joinFrags frags).length) := by
        intro hc
        rw [hf] at hc
        cases hc.1
      simp only [selectLoop, hf, if_true, firstBigJoin, hcond, if_neg, lastJoin]
      exact ih ct hct
    · have hf2 : frags.isEmpty = false := by
        cases h : frags.isEmpty
        · rfl
        · exact absurd h hf
      by_cases h100 : 100 < (joinFrags frags).length
      · simp only [selectLoop, hf2, Bool.false_eq_true, if_false, h100, if_true,
          firstBigJoin, and_self]
      · have hcond : ¬(frags.isEmpty = false ∧ 100 < (joinFrags frags).length) := by
          intro hc
          exact h100 hc.2
        have hle : (joinFrags frags).length ≤ 100 := Nat.le_of_not_lt h100
        simp only [selectLoop, hf2, Bool.false_eq_true, if_false, h100, firstBigJoin,
          hcond, if_neg, lastJoin, hf2]
        exact ih (joinFrags frags) hle

/-- Claim C9 (amended): extract_content tries the ordered selectors and
accepts the first candidate whose joined text exceeds 100 characters; when
no selector join exceeds 100 characters, the retained candidate is the join
of the last selector with any text nodes, and the cleaned full-body text is
returned exactly when that candidate is empty or shorter than 100
characters — a retained candidate of exactly 100 characters is kept instead
of falling back; the spider cleaner is applied to whatever is accepted. -/
theorem extract_content_spec_amended (selectorTexts : List (List String))
    (bodyTexts : List String) :
    extract_content selectorTexts bodyTexts = specContent selectorTexts bodyTexts := by
  simp only [extract_content, specContent]
  have hsl := selectLoop_spec selectorTexts "" (by decide)
  cases hfb : firstBigJoin selectorTexts with
  | some j =>
    rw [hfb] at hsl
    have hsl2 : selectLoop selectorTexts "" = j := hsl.trans rfl
    simp only [hfb]
    have hj := firstBigJoin_big selectorTexts j hfb
    have hcond : ¬(j = "" ∨ j.length < 100) := by
      rintro (h1 | h2)
      · subst h1
        exact absurd hj (by decide)
      · omega
    rw [hsl2, if_neg hcond]
  | none =>
    rw [hfb] at hsl
    have hsl2 : selectLoop selectorTexts "" = lastJoin selectorTexts "" := hsl.trans rfl
    simp only [hfb]
    rw [hsl2]
    by_cases h100 : (lastJoin selectorTexts "").length < 100
    · have hcond : lastJoin selectorTexts "" = "" ∨
          (lastJoin selectorTexts "").length < 100 := Or.inr h100
      rw [if_pos hcond, if_pos h100]
    · have hcond : ¬(lastJoin selectorTexts "" = "" ∨
          (lastJoin selectorTexts "").length < 100) := by
        rintro (h1 | h2)
        · rw [h1] at h100
          exact h100 (by decide)
        · exact h100 h2
      rw [if_neg hcond]
      rw [if_neg h100]

/-- One hundred letters a: a selector join of exactly the threshold length. -/
def aHundred : String := String.mk (List.replicate 100 'a')

/-- Claim C9 counterexample: the single selector joins to exactly 100
characters — so no selector yields more than 100 — yet extract_content
returns the 100-character snippet, not the cleaned full-body text the claim
requires in that case. -/
theorem content_exact_100_kept_cex :
    (joinFrags [aHundred]).length = 100 ∧
    extract_content [[aHundred]] ["short body"] = aHundred ∧
    spider_clean_text (joinFrags ["short body"]) ≠ aHundred :=
  ⟨by decide, by decide, by decide⟩

/-! ## Idempotence of the pipeline cleaner -/

/-- No two adjacent characters are both whitespace. -/
def wsRel (a b : Char) : Prop := ¬(isPySpace a = true ∧ isPySpace b = true)

/-- The shape of text after one whitespace collapse: every whitespace
character is a plain space and no two whitespace characters are adjacent. -/
def goodList (l : List Char) : Prop :=
  (∀ c ∈ l, isPySpace c = true → c = ' ') ∧ List.Chain' wsRel l

theorem mem_of_dropWhile {α : Type} {p : α → Bool} {c : α} :
    ∀ {l : List α}, c ∈ l.dropWhile p → c ∈ l := by
  intro l
  induction l with
  | nil => intro h; exact h
  | cons a rest ih =>
    intro h
    by_cases hp : p a
    · rw [List.dropWhile_cons, if_pos hp] at h
      exact List.mem_cons_of_mem a (ih h)
    · rw [List.dropWhile_cons, if_neg hp] at h
      exact h

theorem mem_pyStripL {c : Char} {l : List Char} (h : c ∈ pyStripL l) : c ∈ l := by
  unfold pyStripL dropWS at h
  rw [List.mem_reverse] at h
  have h2 := mem_of_dropWhile h
  rw [List.mem_reverse] at h2
  exact mem_of_dropWhile h2

theorem mem_collapseWsGo :
    ∀ (l : List Char) (b : Bool) (c : Char), c ∈ collapseWsGo b l → c = ' ' ∨ c ∈ l := by
  intro l
  induction l with
  | nil => intro b c h; cases b <;> cases h
  | cons a rest ih =>
    intro b c h
    cases b with
    | true =>
      simp only [collapseWsGo] at h
      by_cases ha : isPySpace a
      · rw [if_pos ha] at h
        rcases ih true c h with h2 | h2
        · exact Or.inl h2
        · exact Or.inr (List.mem_cons_of_mem a h2)
      · rw [if_neg ha] at h
        rcases List.mem_cons.mp h with h2 | h2
        · exact Or.inr (h2 ▸ List.mem_cons_self a rest)
        · rcases ih false c h2 with h3 | h3
          · exact Or.inl h3
          · exact Or.inr (List.mem_cons_of_mem a h3)
    | false =>
      simp only [collapseWsGo] at h
      by_cases ha : isPySpace a
      · rw [if_pos ha] at h
        rcases List.mem_cons.mp h with h2 | h2
        · exact Or.inl h2
        · rcases ih true c h2 with h3 | h3
          · exact Or.inl h3
          · exact Or.inr (List.mem_cons_of_mem a h3)
      · rw [if_neg ha] at h
        rcases List.mem_cons.mp h with h2 | h2
        · exact Or.inr (h2 ▸ List.mem_cons_self a rest)
        · rcases ih false c h2 with h3 | h3
          · exact Or.inl h3
          · exact Or.inr (List.mem_cons_of_mem a h3)

theorem collapseWsGo_true_head (l : List Char) :
    collapseWsGo true l = [] ∨
      ∃ d t, collapseWsGo true l = d :: t ∧ isPySpace d = false := by
  induction l with
  | nil => exact Or.inl rfl
  | cons a rest ih =>
    by_cases ha : isPySpace a
    · have e : collapseWsGo true (a :: rest) = collapseWsGo true rest := by
        simp only [collapseWsGo, if_pos ha]
      rw [e]
      exact ih
    · have e : collapseWsGo true (a :: rest) = a :: collapseWsGo false rest := by
        simp only [collapseWsGo, if_neg ha]
      rw [e]
      have ha2 : isPySpace a = false := by simpa using ha
      exact Or.inr ⟨a, collapseWsGo false rest, ⟨rfl, ha2⟩⟩

theorem goodList_collapseWsGo :
    ∀ (l : List Char) (b : Bool), goodList (collapseWsGo b l) := by
  intro l
  induction l with
  | nil =>
    intro b
    cases b <;> exact ⟨(by intro c hc; cases hc), List.chain'_nil⟩
  | cons a rest ih =>
    intro b
    by_cases ha : isPySpace a
    · cases b with
      | true =>
        have e : collapseWsGo true (a :: rest) = collapseWsGo true rest := by
          simp only [collapseWsGo, if_pos ha]
        rw [e]
        exact ih true
      | false =>
        have e : collapseWsGo false (a :: rest) = ' ' :: collapseWsGo true rest := by
          simp only [collapseWsGo, if_pos ha]
        rw [e]
        obtain ⟨ihmem, ihchain⟩ := ih true
        refine ⟨?_, ?_⟩
        · intro c hc hws
          rcases List.mem_cons.mp hc with h2 | h2
          · exact h2
          · exact ihmem c h2 hws
        · rw [List.chain'_cons']
          refine ⟨?_, ihchain⟩
          intro y hy
          rcases collapseWsGo_true_head rest with h4 | ⟨d, t, h4, h5⟩
          · rw [h4] at hy
            cases hy
          · rw [h4] at hy
            simp only [List.head?_cons, Option.mem_def, Option.some.injEq] at hy
            intro hcontra
            obtain ⟨_, h7⟩ := hcontra
            rw [← hy, h5] at h7
            exact Bool.false_ne_true h7
    · have e : collapseWsGo b (a :: rest) = a :: collapseWsGo false rest := by
        cases b <;> simp only [collapseWsGo, if_neg ha]
      rw [e]
      obtain ⟨ihmem, ihchain⟩ := ih false
      refine ⟨?_, ?_⟩
      · intro c hc hws
        rcases List.mem_cons.mp hc with h2 | h2
        · subst h2
          exact absurd hws ha
        · exact ihmem c h2 hws
      · rw [List.chain'_cons']
        exact ⟨fun y _ hcontra => ha hcontra.1, ihchain⟩

theorem collapseWsGo_eq_self :
    ∀ l : List Char, goodList l →
      collapseWsGo false l = l ∧
      ((l = [] ∨ ∃ d t, l = d :: t ∧ isPySpace d = false) →
        collapseWsGo true l = l) := by
  intro l
  induction l with
  | nil => exact fun _ => ⟨rfl, fun _ => rfl⟩
  | cons a rest ih =>
    intro hgood
    obtain ⟨hmem, hchain⟩ := hgood
    have hrest : goodList rest :=
      ⟨fun c hc h => hmem c (List.mem_cons_of_mem a hc) h, hchain.tail⟩
    have ihr := ih hrest
    constructor
    · by_cases ha : isPySpace a
      · have e : collapseWsGo false (a :: rest) = ' ' :: collapseWsGo true rest := by
          simp only [collapseWsGo, if_pos ha]
        have haeq : a = ' ' := hmem a (List.mem_cons_self a rest) ha
        have hhead : rest = [] ∨ ∃ d t, rest = d :: t ∧ isPySpace d = false := by
          cases rest with
          | nil => exact Or.inl rfl
          | cons d t =>
            refine Or.inr ⟨d, t, rfl, ?_⟩
            have hrel : wsRel a d := (List.chain'_cons.mp hchain).1
            by_cases hd : isPySpace d
            · exact absurd ⟨ha, hd⟩ hrel
            · simpa using hd
        rw [e, ihr.2 hhead, haeq]
      · have e : collapseWsGo false (a :: rest) = a :: collapseWsGo false rest := by
          simp only [collapseWsGo, if_neg ha]
        rw [e, ihr.1]
    · rintro (h1 | ⟨d, t, h1, h2⟩)
      · cases h1
      · cases h1
        have ha : ¬isPySpace a = true := by
          rw [h2]
          exact Bool.false_ne_true
        have e : collapseWsGo true (a :: rest) = a :: collapseWsGo false rest := by
          simp only [collapseWsGo, if_neg ha]
        rw [e, ihr.1]

theorem goodList_dropWS {l : List Char} (h : goodList l) : goodList (dropWS l) := by
  obtain ⟨hmem, hchain⟩ := h
  refine ⟨fun c hc hws => hmem c (mem_of_dropWhile hc) hws, ?_⟩
  unfold dropWS
  clear hmem
  induction l with
  | nil => exact List.chain'_nil
  | cons a rest ih =>
    by_cases ha : isPySpace a
    · rw [List.dropWhile_cons, if_pos ha]
      exact ih hchain.tail
    · rw [List.dropWhile_cons, if_neg ha]
      exact hchain

theorem goodList_reverse {l : List Char} (h : goodList l) : goodList l.reverse := by
  obtain ⟨hmem, hchain⟩ := h
  refine ⟨fun c hc hws => hmem c (List.mem_reverse.mp hc) hws, ?_⟩
  rw [List.chain'_reverse]
  exact hchain.imp (fun a b hab hcontra => hab ⟨hcontra.2, hcontra.1⟩)

theorem goodList_pyStripL {l : List Char} (h : goodList l) : goodList (pyStripL l) :=
  goodList_reverse (goodList_dropWS (goodList_reverse (goodList_dropWS h)))

theorem dropWS_dropWS (l : List Char) : dropWS (dropWS l) = dropWS l := by
  unfold dropWS
  induction l with
  | nil => rfl
  | cons a rest ih =>
    by_cases ha : isPySpace a
    · rw [List.dropWhile_cons, if_pos ha]
      exact ih
    · rw [List.dropWhile_cons, if_neg ha, List.dropWhile_cons, if_neg ha]

theorem dropWS_append (a b : List Char) :
    dropWS (a ++ b) = if (dropWS a).isEmpty then dropWS b else dropWS a ++ b := by
  unfold dropWS
  induction a with
  | nil => simp
  | cons c rest ih =>
    by_cases hc : isPySpace c
    · rw [List.cons_append, List.dropWhile_cons, if_pos hc, List.dropWhile_cons,
        if_pos hc]
      exact ih
    · rw [List.cons_append, List.dropWhile_cons, if_neg hc, List.dropWhile_cons,
        if_neg hc]
      simp

/-- Right trim: remove trailing whitespace. -/
def trimR (l : List Char) : List Char := (dropWS l.reverse).reverse

theorem pyStripL_as_trim (l : List Char) : pyStripL l = trimR (dropWS l) := rfl

theorem trimR_trimR (l : List Char) : trimR (trimR l) = trimR l := by
  unfold trimR
  rw [List.reverse_reverse, dropWS_dropWS]

theorem dropWS_all_ws {l : List Char} (h : dropWS l = []) :
    ∀ c ∈ l, isPySpace c = true := by
  unfold dropWS at h
  induction l with
  | nil => intro c hc; cases hc
  | cons a rest ih =>
    by_cases ha : isPySpace a
    · rw [List.dropWhile_cons, if_pos ha] at h
      intro c hc
      rcases List.mem_cons.mp hc with h2 | h2
      · subst h2
        exact ha
      · exact ih h c h2
    · rw [List.dropWhile_cons, if_neg ha] at h
      cases h

theorem all_ws_dropWS {l : List Char} (h : ∀ c ∈ l, isPySpace c = true) :
    dropWS l = [] := by
  unfold dropWS
  induction l with
  | nil => rfl
  | cons a rest ih =>
    rw [List.dropWhile_cons, if_pos (h a (List.mem_cons_self a rest))]
    exact ih (fun c hc => h c (List.mem_cons_of_mem a hc))

theorem dropWS_cons_of_ws {c : Char} (rest : List Char) (hc : isPySpace c = true) :
    dropWS (c :: rest) = dropWS rest := by
  unfold dropWS
  rw [List.dropWhile_cons, if_pos hc]

theorem dropWS_cons_of_not_ws {c : Char} (rest : List Char)
    (hc : ¬isPySpace c = true) : dropWS (c :: rest) = c :: rest := by
  unfold dropWS
  rw [List.dropWhile_cons, if_neg hc]

theorem dropWS_trimR_comm (l : List Char) : dropWS (trimR l) = trimR (dropWS l) := by
  induction l with
  | nil => rfl
  | cons c rest ih =>
    unfold trimR at ih ⊢
    rw [List.reverse_cons, dropWS_append]
    by_cases hc : isPySpace c
    · rw [dropWS_cons_of_ws rest hc]
      by_cases he : (dropWS rest.reverse).isEmpty
      · rw [if_pos he]
        have h1 : dropWS [c] = ([] : List Char) := by
          rw [dropWS_cons_of_ws [] hc]
          rfl
        have hr : dropWS rest = [] := all_ws_dropWS (fun x hx =>
          dropWS_all_ws (List.isEmpty_iff.mp he) x (List.mem_reverse.mpr hx))
        rw [h1, hr]
        rfl
      · rw [if_neg he, List.reverse_append, List.reverse_singleton,
          List.singleton_append, dropWS_cons_of_ws _ hc]
        exact ih
    · rw [dropWS_cons_of_not_ws rest hc, List.reverse_cons, dropWS_append]
      by_cases he : (dropWS rest.reverse).isEmpty
      · rw [if_pos he]
        have h1 : dropWS [c] = ([c] : List Char) := by
          rw [dropWS_cons_of_not_ws [] hc]
        rw [h1, List.reverse_singleton]
        exact h1
      · rw [if_neg he, List.reverse_append, List.reverse_singleton,
          List.singleton_append, dropWS_cons_of_not_ws _ hc]

theorem pyStripL_idem (l : List Char) : pyStripL (pyStripL l) = pyStripL l := by
  rw [pyStripL_as_trim, pyStripL_as_trim, dropWS_trimR_comm, dropWS_dropWS,
    trimR_trimR]

theorem clean_core_idem (l : List Char) :
    pyStripL (collapseWs
        ((pyStripL (collapseWs (l.filter pipeAllowed))).filter pipeAllowed))
      = pyStripL (collapseWs (l.filter pipeAllowed)) := by
  have hfilter : (pyStripL (collapseWs (l.filter pipeAllowed))).filter pipeAllowed
      = pyStripL (collapseWs (l.filter pipeAllowed)) := by
    rw [List.filter_eq_self]
    intro c hc
    have hc2 : c ∈ collapseWs (l.filter pipeAllowed) := mem_pyStripL hc
    rcases mem_collapseWsGo (l.filter pipeAllowed) false c hc2 with h | h
    · subst h
      decide
    · exact List.of_mem_filter h
  have hgood : goodList (pyStripL (collapseWs (l.filter pipeAllowed))) :=
    goodList_pyStripL (goodList_collapseWsGo (l.filter pipeAllowed) false)
  have hcollapse : collapseWs (pyStripL (collapseWs (l.filter pipeAllowed)))
      = pyStripL (collapseWs (l.filter pipeAllowed)) :=
    (collapseWsGo_eq_self _ hgood).1
  rw [hfilter, hcollapse, pyStripL_idem]

/-- Claim C10 counterexample: the spider files' cleaner is not idempotent —
on the three-character input backslash, CJK ideograph, letter s, one
application leaves the two characters backslash s, and a second application
erases them (the miswritten backslash-s pattern then fires). -/
theorem spider_clean_text_not_idempotent_cex :
    spider_clean_text (spider_clean_text (String.mk [bsChar, Char.ofNat 0x4e2d, 's']))
      ≠ spider_clean_text (String.mk [bsChar, Char.ofNat 0x4e2d, 's']) := by
  decide

/-- Claim C10 (amended): the pipeline cleaner DataCleaningPipeline.clean_text
is idempotent: cleaning twice equals cleaning once, for every input string.
(The spider files' clean_text is not; see the counterexample.) -/
theorem pipeline_clean_text_idempotent (s : String) :
    pipeline_clean_text (pipeline_clean_text s) = pipeline_clean_text s := by
  by_cases hs : s = ""
  · subst hs; rfl
  · have e1 : pipeline_clean_text s
        = String.mk (pyStripL (collapseWs (s.data.filter pipeAllowed))) := by
      unfold pipeline_clean_text
      rw [if_neg hs]
    rw [e1]
    by_cases h2 : String.mk (pyStripL (collapseWs (s.data.filter pipeAllowed))) = ""
    · rw [h2]
      rfl
    · unfold pipeline_clean_text
      rw [if_neg h2]
      exact congrArg String.mk (clean_core_idem s.data)

end NkuCrawler
